import Mathlib

/-!
Verification development for the semantic-retrieval ("RAG") core of the
advanced-notes repository: the chunker, the content-addressable embedding
store, the retrieval engine, the status/coverage reporter, and the legacy
schema migration.

Modelling conventions (shallow embedding of the TypeScript source):
* JavaScript numbers are modelled as exact rationals (`ℚ`); IEEE-754 rounding
  is not modelled.  The one JS-number phenomenon the claims depend on - the
  fact that `0/0` is `NaN` and that `NaN` comparisons are always false - is
  modelled explicitly in the `Score` type below.
* Strings are modelled as `List Char` in the chunker core (`String` is a
  wrapper around its character list); JS `String.prototype.length` counts
  UTF-16 code units, which coincides with the character count on the
  ASCII inputs considered here.  The JS whitespace class `\s` is modelled by
  its ASCII part (space, tab, newline, carriage return), matching Lean's
  `Char.isWhitespace`.
* The SQLite tables are modelled as Lean lists of row structures; `INSERT OR
  IGNORE` / `INSERT OR REPLACE` / `DELETE ... WHERE` become the corresponding
  list operations.  `created_at` / `updated_at` timestamp columns are not
  modelled (no claim mentions them).
* The external embedding Provider (an HTTP call) is a function parameter:
  `String → Option (List ℚ)` where `none` models a failed call, or
  `String → List ℚ` where the source itself encodes failure as the empty
  array (the chat route's `getEmbedding` returns `[]` on any failure).
* `crypto.createHash('sha256')` is a function parameter `hashFn`; every
  theorem about the store holds for an arbitrary hash function.
-/

/-! ## Chunker (`chunkText` in src/app/api/embeddings/route.ts)

The source:
```
const CHUNK_SIZE = 500;
function chunkText(text: string): string[] {
  const chunks: string[] = [];
  const sentences = text.split(/(?<=[.!?])\s+/);
  let currentChunk = '';
  for (const sentence of sentences) {
    if ((currentChunk + sentence).length > CHUNK_SIZE && currentChunk) {
      chunks.push(currentChunk.trim());
      const words = currentChunk.split(' ');
      const overlapWords = words.slice(-Math.floor(words.length * 0.2));
      currentChunk = overlapWords.join(' ') + ' ' + sentence;
    } else {
      currentChunk += (currentChunk ? ' ' : '') + sentence;
    }
  }
  if (currentChunk.trim()) chunks.push(currentChunk.trim());
  return chunks.filter(c => c.length > 20);
}
```
-/

/-- The chunk-size threshold `CHUNK_SIZE = 500` of the source. -/
def CHUNK_SIZE : Nat := 500

/-- `[.!?]` - the sentence-ending punctuation of the split regex. -/
def sentEndChar (c : Char) : Bool := c == '.' || c == '!' || c == '?'

/-- The ASCII part of the JS `\s` whitespace class (matches Lean's
`Char.isWhitespace`). -/
def wsChar (c : Char) : Bool := c == ' ' || c == '\t' || c == '\n' || c == '\r'

/-- Whether the accumulator (a reversed sentence prefix) ends in `[.!?]`:
this is the regex lookbehind `(?<=[.!?])`. -/
def lastIsSentEnd : List Char → Bool
  | [] => false
  | p :: _ => sentEndChar p

/-- `text.split(/(?<=[.!?])\s+/)` on a character list.  A split point is a
maximal whitespace run (`\s+`, consumed) immediately preceded by `.`, `!` or
`?` (lookbehind, kept).  The `fuel` argument (instantiated with the input
length) only makes the recursion structural; it never runs out, because each
step consumes at least one character. -/
def splitSentencesAux : Nat → List Char → List Char → List (List Char)
  | _, [], acc => [acc.reverse]
  | 0, l, acc => [acc.reverse ++ l]
  | fuel + 1, c :: rest, acc =>
    if wsChar c && lastIsSentEnd acc then
      acc.reverse :: splitSentencesAux fuel (rest.dropWhile wsChar) []
    else
      splitSentencesAux fuel rest (c :: acc)

/-- Sentence splitting on a character list. -/
def splitSentencesL (text : List Char) : List (List Char) :=
  splitSentencesAux text.length text []

/-- `String.prototype.trim()` restricted to ASCII whitespace. -/
def trimL (l : List Char) : List Char :=
  ((l.dropWhile wsChar).reverse.dropWhile wsChar).reverse

/-- `str.split(sep)` for a single-character separator (JS string-separator
split: adjacent separators produce empty fragments, `''.split(sep) = ['']`). -/
def splitOnCharL (sep : Char) : List Char → List (List Char)
  | [] => [[]]
  | c :: rest =>
    match splitOnCharL sep rest with
    | [] => [[c]]
    | g :: gs => if c == sep then [] :: g :: gs else (c :: g) :: gs

/-- The loop body of `chunkText`.  State: `(currentChunk, chunks)`.

Two source quirks are modelled exactly:
* `Math.floor(words.length * 0.2)` equals `words.length / 5` (Nat division):
  the double product `len * 0.2` rounds to a value whose floor is `⌊len/5⌋`
  for every realistic length.
* `words.slice(-k)` is the **whole** array when `k = 0` (`slice(-0)` is
  `slice(0)`), and the trailing `k` words when `k > 0`. -/
def chunkStepL (st : List Char × List (List Char)) (sentence : List Char) :
    List Char × List (List Char) :=
  if CHUNK_SIZE < (st.1 ++ sentence).length ∧ st.1 ≠ [] then
    let words := splitOnCharL ' ' st.1
    let k := words.length / 5
    let overlapWords := if k = 0 then words else words.drop (words.length - k)
    (List.intercalate [' '] overlapWords ++ ' ' :: sentence, st.2 ++ [trimL st.1])
  else
    ((if st.1 = [] then sentence else st.1 ++ ' ' :: sentence), st.2)

/-- `chunkText` before the final length filter: the sentence fold plus the
flush of a non-empty trailing buffer. -/
def chunkTextRawL (text : List Char) : List (List Char) :=
  let st := (splitSentencesL text).foldl chunkStepL ([], [])
  if trimL st.1 = [] then st.2 else st.2 ++ [trimL st.1]

/-- `chunkText` on a character list: `chunks.filter(c => c.length > 20)`. -/
def chunkTextL (text : List Char) : List (List Char) :=
  (chunkTextRawL text).filter (fun c => 20 < c.length)

/-- `chunkText` at the `String` level (the type the route handlers use). -/
def chunkText (text : String) : List String :=
  (chunkTextL text.data).map String.mk

/-- The pre-filter chunk list at the `String` level. -/
def chunkTextRaw (text : String) : List String :=
  (chunkTextRawL text.data).map String.mk

/-! ### The claim's reading of the overlap seed (for claim C8)

Claim C8 states the next chunk is seeded with "the trailing ~20% of the
closed chunk's words".  The following definitions formalise exactly that
reading: the trailing `⌊words.length * 0.2⌋` words, with no special case -
whereas the source's `words.slice(-0)` carries the **whole** buffer forward
whenever the closed chunk has fewer than five words. -/

/-- The C8 claim's step function: identical to `chunkStepL` except that the
overlap seed is always the trailing `⌊20%⌋` of the words. -/
def chunkStepC8claimL (st : List Char × List (List Char)) (sentence : List Char) :
    List Char × List (List Char) :=
  if CHUNK_SIZE < (st.1 ++ sentence).length ∧ st.1 ≠ [] then
    let words := splitOnCharL ' ' st.1
    let k := words.length / 5
    let overlapWords := words.drop (words.length - k)
    (List.intercalate [' '] overlapWords ++ ' ' :: sentence, st.2 ++ [trimL st.1])
  else
    ((if st.1 = [] then sentence else st.1 ++ ' ' :: sentence), st.2)

/-- The chunker as described word-for-word by claim C8. -/
def chunkTextC8claimL (text : List Char) : List (List Char) :=
  let st := (splitSentencesL text).foldl chunkStepC8claimL ([], [])
  (if trimL st.1 = [] then st.2 else st.2 ++ [trimL st.1]).filter (fun c => 20 < c.length)

/-- The amended chunker description (claim C8 corrected): the overlap seed is
the trailing `⌊20%⌋` of the closed chunk's words **except** when that count
is zero (closed chunk of fewer than five words), in which case the entire
closed chunk is carried forward (the source's `slice(-0)` artifact). -/
def chunkStepC8amendedL (st : List Char × List (List Char)) (sentence : List Char) :
    List Char × List (List Char) :=
  if CHUNK_SIZE < (st.1 ++ sentence).length ∧ st.1 ≠ [] then
    let words := splitOnCharL ' ' st.1
    let k := words.length / 5
    let overlapWords := if k = 0 then words else words.drop (words.length - k)
    (List.intercalate [' '] overlapWords ++ ' ' :: sentence, st.2 ++ [trimL st.1])
  else
    ((if st.1 = [] then sentence else st.1 ++ ' ' :: sentence), st.2)

/-- The chunker as described by the amended claim C8. -/
def chunkTextC8amendedL (text : List Char) : List (List Char) :=
  let st := (splitSentencesL text).foldl chunkStepC8amendedL ([], [])
  (if trimL st.1 = [] then st.2 else st.2 ++ [trimL st.1]).filter (fun c => 20 < c.length)

/-! ## Similarity scores (`cosineSimilarity` in the chat route, src/unnamed/part_006)

The source:
```
function cosineSimilarity(a: number[], b: number[]): number {
  let dotProduct = 0, normA = 0, normB = 0;
  for (let i = 0; i < a.length; i++) {
    dotProduct += a[i] * b[i];
    normA += a[i] * a[i];
    normB += b[i] * b[i];
  }
  return dotProduct / (Math.sqrt(normA) * Math.sqrt(normB));
}
```
The returned double is `d / (√nA · √nB)` with `d = Σ aᵢbᵢ`,
`nA = Σ aᵢ²`, `nB = Σ bᵢ²` (the loop runs over `a`'s indices, so `b` is
truncated to `a.length`; if `b` is shorter, `b[i]` is `undefined` and every
accumulator becomes `NaN`).  We represent the score by the exact pair
`(d, n)` with `n = nA · nB`:
* if `0 < n` the score is the real number `d / √n`;
* if `n = 0` then necessarily `d = 0` (a zero `n` forces a zero vector on one
  side) and the JS division is `0/0 = NaN`;
* `n = -1` is used for the `b`-shorter-than-`a` case, whose JS value is `NaN`
  as well.  So: the score is `NaN` iff `n ≤ 0`. -/

/-- A similarity score: the JS double `d / √n`, `NaN` iff `n ≤ 0`. -/
structure Score where
  d : ℚ
  n : ℚ
deriving DecidableEq, Repr

/-- Whether the JS score is `NaN`. -/
def Score.isNaN (s : Score) : Bool := s.n ≤ 0

/-- `Σ xᵢ²` of a vector. -/
def sumsq (l : List ℚ) : ℚ := (l.map (fun x => x * x)).sum

/-- `Σ aᵢ·bᵢ` (indices range over the shorter list; in `cosineSimilarity` the
loop runs over `a`, and the `b`-shorter case is handled separately). -/
def dotProduct (a b : List ℚ) : ℚ := (List.zipWith (fun x y => x * y) a b).sum

/-- `cosineSimilarity` as a `Score`.  Note the source has **no** zero-norm
guard: a zero vector on either side yields `n = 0`, i.e. the JS `NaN`. -/
def cosineSimilarity (a b : List ℚ) : Score :=
  if b.length < a.length then ⟨0, -1⟩
  else ⟨dotProduct a b, sumsq a * sumsq (b.take a.length)⟩

/-- The JS comparison `score > 0.3` (the retrieval threshold filter
`.filter(c => c.score > 0.3)`).  For a real score (`0 < n`),
`d/√n > 3/10 ↔ 0 < d ∧ (3/10)² · n < d²`; for `NaN` every comparison is
false. -/
def aboveThreshold (s : Score) : Bool :=
  decide (0 < s.n) && decide (0 < s.d) && decide ((3 / 10 : ℚ) ^ 2 * s.n < s.d ^ 2)

/-- The sort comparator `(a, b) => b.score - a.score` reduced to an
`Ordering` (`.gt` = `a` sorts strictly before `b`, i.e. `a.score > b.score`).
Per ECMAScript `SortCompare`, a `NaN` comparator result is coerced to `+0`,
so any comparison involving a `NaN` score is `eq`.  For real scores the
comparison `d/√n` vs `d'/√n'` is decided by signs and squaring. -/
def scmp (s t : Score) : Ordering :=
  if s.n ≤ 0 ∨ t.n ≤ 0 then .eq
  else if 0 ≤ s.d then
    if t.d < 0 then .gt
    else if t.d ^ 2 * s.n < s.d ^ 2 * t.n then .gt
    else if s.d ^ 2 * t.n < t.d ^ 2 * s.n then .lt
    else .eq
  else
    if 0 ≤ t.d then .lt
    else if s.d ^ 2 * t.n < t.d ^ 2 * s.n then .gt
    else if t.d ^ 2 * s.n < s.d ^ 2 * t.n then .lt
    else .eq

/-- One insertion step of the stable insertion sort modelling
`similarities.sort((a, b) => b.score - a.score)`.  The accumulator holds the
sorted prefix **reversed** (smallest first); an element scans from the right
end of the sorted prefix, moving past strictly smaller scores and stopping at
the first `eq`/`gt` - exactly the rightward scan V8 performs on short arrays,
and, for a consistent comparator (no `NaN`), the unique stable descending
sort required by ES2019. -/
def insertScored (x : String × Score) : List (String × Score) → List (String × Score)
  | [] => [x]
  | y :: ys => if scmp x.2 y.2 = .gt then y :: insertScored x ys else x :: y :: ys

/-- `arr.sort((a, b) => b.score - a.score)` (stable, descending). -/
def jsSortByScoreDesc (l : List (String × Score)) : List (String × Score) :=
  (l.foldl (fun acc x => insertScored x acc) []).reverse

/-- `TOP_K = 3` of the chat route. -/
def TOP_K : Nat := 3

/-! ## The store (SQLite tables, src/lib/db.ts alias src/unnamed/part_011) -/

/-- A row of the namespaced `embeddings` table
(`UNIQUE(embedding_model_id, chunk_hash)`). -/
structure EmbRow where
  embedding_model_id : String
  chunk_text : String
  chunk_hash : String
  embedding : List ℚ
deriving DecidableEq, Repr

/-- A row of the namespaced `embedding_state` table (primary key
`embedding_model_id`; `updated_at` not modelled). -/
structure StateRow where
  embedding_model_id : String
  last_content_hash : Option String
  total_chunks : Nat
  embedded_chunks : Nat
deriving DecidableEq, Repr

/-- The post-initialization database: the three namespaced tables.
`embedding_models` is the list of `model_id`s in `created_at` order
(insertion order). -/
structure DB where
  embeddings : List EmbRow
  embedding_state : List StateRow
  embedding_models : List String
deriving DecidableEq, Repr

/-- `SELECT ... FROM embeddings WHERE embedding_model_id = ?`. -/
def rowsFor (modelId : String) (rows : List EmbRow) : List EmbRow :=
  rows.filter (fun r => r.embedding_model_id == modelId)

/-- The hashes stored for a model (`SELECT chunk_hash FROM embeddings WHERE
embedding_model_id = ?`). -/
def existingHashes (rows : List EmbRow) (modelId : String) : List String :=
  (rowsFor modelId rows).map (fun r => r.chunk_hash)

/-- `INSERT OR IGNORE INTO embeddings ...`: a no-op when the
`(embedding_model_id, chunk_hash)` pair is already present. -/
def insertOrIgnoreEmb (rows : List EmbRow) (r : EmbRow) : List EmbRow :=
  if rows.any (fun x =>
      x.embedding_model_id == r.embedding_model_id && x.chunk_hash == r.chunk_hash) then
    rows
  else rows ++ [r]

/-- `INSERT OR REPLACE INTO embedding_state ...` (primary key
`embedding_model_id`). -/
def insertOrReplaceState (st : List StateRow) (r : StateRow) : List StateRow :=
  st.filter (fun x => ¬ x.embedding_model_id == r.embedding_model_id) ++ [r]

/-- `INSERT OR IGNORE INTO embedding_models (model_id) VALUES (?)`
(`ensureEmbeddingModelRegistered`). -/
def insertOrIgnoreModel (ms : List String) (m : String) : List String :=
  if m ∈ ms then ms else ms ++ [m]

/-! ## Retrieval engine (`getRAGContext` in src/unnamed/part_006)

The source (after the query embedding and the empty-rows guards):
```
const similarities = rows.map(row => ({ text: row.chunk_text,
                                        score: cosineSimilarity(queryEmbedding, embedding) }));
similarities.sort((a, b) => b.score - a.score);
const relevant = similarities.slice(0, TOP_K).filter(c => c.score > 0.3);
return relevant.map(c => c.text).join('\n\n');
```
-/

/-- The scored, sorted, top-K'd, thresholded result list for a query vector
over a model's stored rows. -/
def ragRelevant (q : List ℚ) (rows : List EmbRow) : List (String × Score) :=
  ((jsSortByScoreDesc (rows.map
      (fun r => (r.chunk_text, cosineSimilarity q r.embedding)))).take TOP_K).filter
    (fun c => aboveThreshold c.2)

/-- `getRAGContext`: the external Provider appears as the function
`provider`; a failed `getEmbedding` call is the empty vector (the source's
`getEmbedding` returns `[]` on any HTTP failure or missing payload).  Any
path that cannot produce context returns the empty string (the source never
throws here: the body is also wrapped in a `try/catch` returning `''`). -/
def getRAGContext (provider : String → List ℚ) (query modelId : String) (db : DB) :
    String :=
  let queryEmbedding := provider query
  if queryEmbedding.length = 0 then ""
  else
    let rows := rowsFor modelId db.embeddings
    if rows.length = 0 then ""
    else String.intercalate "\n\n" ((ragRelevant queryEmbedding rows).map (fun c => c.1))

/-! ## Status/coverage reporter and the embed endpoint
(src/app/api/embeddings/route.ts, multi-model version) -/

/-- `Math.round(q)` for the non-negative arguments used here
(round half up). -/
def jsRound (q : ℚ) : Int := Int.floor (q + 1 / 2)

/-- The response body of `GET /api/embeddings` restricted to the fields the
claims are about (`embeddingModelId` merely echoes the input and
`availableEmbeddingModels` is UI plumbing; both are omitted). -/
structure StatusResp where
  totalChunks : Nat
  embeddedChunks : Nat
  percentage : Int
  needsUpdate : Bool
deriving DecidableEq, Repr

/-- The `GET` handler core: chunk the current text, count current chunks
whose hash is already stored for the model, and write the freshly computed
numbers through to `embedding_state`.  `percentage` is
`Math.round((embedded / total) * 100)` when `total > 0`, else `0`;
`needsUpdate` is `total > 0 && embedded < total`.  Returns the updated
database and the response. -/
def getStatus (hashFn : String → String) (modelId textContent : String) (db : DB) :
    DB × StatusResp :=
  let models := insertOrIgnoreModel db.embedding_models modelId
  let chunks := chunkText textContent
  let totalChunks := chunks.length
  let existing := existingHashes db.embeddings modelId
  let embeddedCurrentChunks := (chunks.filter (fun c => existing.contains (hashFn c))).length
  let percentage : Int :=
    if 0 < totalChunks then jsRound ((embeddedCurrentChunks : ℚ) * 100 / totalChunks) else 0
  let st := insertOrReplaceState db.embedding_state
    ⟨modelId, some (hashFn textContent), totalChunks, embeddedCurrentChunks⟩
  ({ db with embedding_models := models, embedding_state := st },
   ⟨totalChunks, embeddedCurrentChunks, percentage,
    decide (0 < totalChunks) && decide (embeddedCurrentChunks < totalChunks)⟩)

/-- The chunks of the current text whose hash is not yet stored for the
model, paired with their hashes (`newChunks` in the `POST` handler). -/
def newChunksOf (hashFn : String → String) (modelId textContent : String) (db : DB) :
    List (String × String) :=
  ((chunkText textContent).map (fun c => (c, hashFn c))).filter
    (fun p => ¬ (existingHashes db.embeddings modelId).contains p.2)

/-- One iteration of the `POST` embed loop over `(rows, embedded, calls)`:
call the Provider for the chunk (counted in `calls`); on success
`INSERT OR IGNORE` the row and increment `embedded`; on failure
(`catch { console.error(...) }`) skip the chunk and continue. -/
def embedStep (embedFn : String → Option (List ℚ)) (modelId : String)
    (st : List EmbRow × Nat × Nat) (p : String × String) : List EmbRow × Nat × Nat :=
  match embedFn p.1 with
  | some v => (insertOrIgnoreEmb st.1 ⟨modelId, p.1, p.2, v⟩, st.2.1 + 1, st.2.2 + 1)
  | none => (st.1, st.2.1, st.2.2 + 1)

/-- The sequential embed loop of the `POST` handler. -/
def embedLoop (embedFn : String → Option (List ℚ)) (modelId : String)
    (l : List (String × String)) (init : List EmbRow × Nat × Nat) :
    List EmbRow × Nat × Nat :=
  l.foldl (embedStep embedFn modelId) init

/-- The `POST /api/embeddings` handler core.  Returns the updated database,
the reported `embedded` count, and the number of Provider calls made.
If every current chunk is already embedded the handler returns early
(`embedded: 0`, no Provider call, no state write). -/
def postEmbed (hashFn : String → String) (embedFn : String → Option (List ℚ))
    (modelId textContent : String) (db : DB) : DB × Nat × Nat :=
  let db1 : DB := { db with embedding_models := insertOrIgnoreModel db.embedding_models modelId }
  let chunks := chunkText textContent
  let newChunks := newChunksOf hashFn modelId textContent db
  if newChunks.isEmpty then (db1, 0, 0)
  else
    let res := embedLoop embedFn modelId newChunks (db1.embeddings, 0, 0)
    let afterHashes := existingHashes res.1 modelId
    let embeddedCurrentChunks :=
      (chunks.filter (fun c => afterHashes.contains (hashFn c))).length
    let st := insertOrReplaceState db1.embedding_state
      ⟨modelId, some (hashFn textContent), chunks.length, embeddedCurrentChunks⟩
    ({ db1 with embeddings := res.1, embedding_state := st }, res.2.1, res.2.2)

/-- The `DELETE /api/embeddings?modelId=A` handler core (after the trim and
non-empty validation of `modelId`): delete the model's embedding rows and
reset its state row to zeros; `embedding_models` is untouched. -/
def deleteCore (modelId : String) (db : DB) : DB :=
  { db with
    embeddings := db.embeddings.filter (fun r => ¬ r.embedding_model_id == modelId),
    embedding_state := insertOrReplaceState db.embedding_state ⟨modelId, none, 0, 0⟩ }

/-- The `DELETE` handler including its validation: an empty (or
whitespace-trimmed-to-empty, already applied) `modelId` is rejected with a
400 (`none`); otherwise the delete runs. -/
def deleteEmbeddings (modelId : String) (db : DB) : Option DB :=
  if modelId = "" then none else some (deleteCore modelId db)

/-! ## Store initialization and legacy-schema migration
(the IIFE in src/lib/db.ts alias src/unnamed/part_011)

The legacy single-model schema had `embeddings` with `UNIQUE(chunk_hash)`
and no `embedding_model_id` column, and `embedding_state` keyed by a single
row `id = 1`.  Initialization creates the namespaced tables when absent and,
when a legacy table is detected (no `embedding_model_id` column), renames it,
recreates the namespaced table, copies every row forward under the default
model id, and drops the legacy table.  The rename/recreate/copy/drop SQL
sequence is modelled by its net effect on the table contents. -/

/-- `DEFAULT_EMBEDDING_MODEL = 'qwen/qwen3-embedding-8b'`. -/
def DEFAULT_EMBEDDING_MODEL : String := "qwen/qwen3-embedding-8b"

/-- A row of the legacy (single-model) `embeddings` table. -/
structure LegacyEmbRow where
  chunk_text : String
  chunk_hash : String
  embedding : List ℚ
deriving DecidableEq, Repr

/-- A row of the legacy `embedding_state` table (single row with `id = 1`). -/
structure LegacyStateRow where
  id : Nat
  last_content_hash : Option String
  total_chunks : Nat
  embedded_chunks : Nat
deriving DecidableEq, Repr

/-- The `embeddings` table as found on disk: absent, legacy schema, or
namespaced schema. -/
inductive EmbTable where
  | absent
  | legacy (rows : List LegacyEmbRow)
  | namespaced (rows : List EmbRow)
deriving DecidableEq, Repr

/-- The `embedding_state` table as found on disk. -/
inductive StateTable where
  | absent
  | legacy (rows : List LegacyStateRow)
  | namespaced (rows : List StateRow)
deriving DecidableEq, Repr

/-- The rows of a namespaced `embeddings` table (empty for the other
constructors; migration guarantees the namespaced constructor). -/
def EmbTable.rowsOf : EmbTable → List EmbRow
  | .namespaced rows => rows
  | _ => []

/-- Whether the legacy `embeddings` table is (still) present - i.e. the
table named `embeddings` lacks the `embedding_model_id` column. -/
def EmbTable.isLegacyTable : EmbTable → Bool
  | .legacy _ => true
  | _ => false

/-- The rows of a namespaced `embedding_state` table. -/
def StateTable.rowsOf : StateTable → List StateRow
  | .namespaced rows => rows
  | _ => []

/-- Whether the legacy `embedding_state` table is (still) present. -/
def StateTable.isLegacyTable : StateTable → Bool
  | .legacy _ => true
  | _ => false

/-- The database file as found on disk before initialization. -/
structure RawStore where
  embeddings : EmbTable
  embedding_state : StateTable
  embedding_models : List String
deriving DecidableEq, Repr

/-- A legacy embedding row copied forward under the default model id
(`INSERT INTO embeddings ... SELECT '<default>', chunk_text, chunk_hash,
embedding ... FROM embeddings_legacy`). -/
def migrateEmbRow (r : LegacyEmbRow) : EmbRow :=
  ⟨DEFAULT_EMBEDDING_MODEL, r.chunk_text, r.chunk_hash, r.embedding⟩

/-- A legacy state row copied forward under the default model id. -/
def migrateStateRow (r : LegacyStateRow) : StateRow :=
  ⟨DEFAULT_EMBEDDING_MODEL, r.last_content_hash, r.total_chunks, r.embedded_chunks⟩

/-- Store initialization (the IIFE run when `src/lib/db.ts` is loaded):
1. `CREATE TABLE IF NOT EXISTS` for the three tables (a no-op when a table
   of that name exists, even with the legacy schema);
2. if `embeddings` lacks `embedding_model_id`: rename to `embeddings_legacy`,
   recreate namespaced, copy all rows forward under the default model id,
   drop the legacy table;
3. the same for `embedding_state`, except only the single legacy row
   `WHERE id = 1` is copied;
4. register the default model, then register every model id found in
   `embedding_state` (skipping empty ids). -/
def initStore (s : RawStore) : RawStore :=
  let emb : EmbTable := match s.embeddings with
    | .absent => .namespaced []
    | t => t
  let st : StateTable := match s.embedding_state with
    | .absent => .namespaced []
    | t => t
  let emb : EmbTable := match emb with
    | .legacy rows => .namespaced (rows.map migrateEmbRow)
    | t => t
  let st : StateTable := match st with
    | .legacy rows => .namespaced ((rows.filter (fun r => r.id == 1)).map migrateStateRow)
    | t => t
  let ms := insertOrIgnoreModel s.embedding_models DEFAULT_EMBEDDING_MODEL
  let ms := st.rowsOf.foldl
    (fun acc r =>
      if r.embedding_model_id ≠ "" then insertOrIgnoreModel acc r.embedding_model_id else acc)
    ms
  ⟨emb, st, ms⟩

/-! ## Lemmas about the store operations -/

/-- A `(modelId, chunkHash)` pair is present in the embeddings table. -/
def pairMem (rows : List EmbRow) (m h : String) : Prop :=
  ∃ r ∈ rows, r.embedding_model_id = m ∧ r.chunk_hash = h

instance (rows : List EmbRow) (m h : String) : Decidable (pairMem rows m h) := by
  unfold pairMem; infer_instance

/-- The number of rows with a given `(modelId, chunkHash)` pair (the SQLite
`UNIQUE` constraint keeps this at most 1). -/
def countPair (rows : List EmbRow) (m h : String) : Nat :=
  rows.countP (fun r => r.embedding_model_id == m && r.chunk_hash == h)

lemma any_pair_iff (rows : List EmbRow) (m h : String) :
    (rows.any fun x => x.embedding_model_id == m && x.chunk_hash == h) = true ↔
      pairMem rows m h := by
  simp [pairMem, List.any_eq_true]

lemma countPair_pos_iff (rows : List EmbRow) (m h : String) :
    0 < countPair rows m h ↔ pairMem rows m h := by
  simp [countPair, List.countP_pos_iff, pairMem]

lemma countPair_eq_one_of_mem {rows : List EmbRow} {m h : String}
    (hmem : pairMem rows m h) (hle : countPair rows m h ≤ 1) :
    countPair rows m h = 1 := by
  have := (countPair_pos_iff rows m h).mpr hmem
  omega

lemma pairMem_insertOrIgnoreEmb_self (rows : List EmbRow) (r : EmbRow) :
    pairMem (insertOrIgnoreEmb rows r) r.embedding_model_id r.chunk_hash := by
  unfold insertOrIgnoreEmb
  split
  · exact (any_pair_iff ..).mp (by assumption)
  · exact ⟨r, by simp, rfl, rfl⟩

lemma pairMem_insertOrIgnoreEmb_mono {rows : List EmbRow} {m h : String}
    (r : EmbRow) (hmem : pairMem rows m h) :
    pairMem (insertOrIgnoreEmb rows r) m h := by
  unfold insertOrIgnoreEmb
  split
  · exact hmem
  · obtain ⟨x, hx, hp⟩ := hmem
    exact ⟨x, by simp [hx], hp⟩

lemma insertOrIgnoreEmb_of_mem {rows : List EmbRow} {r : EmbRow}
    (hmem : pairMem rows r.embedding_model_id r.chunk_hash) :
    insertOrIgnoreEmb rows r = rows := by
  unfold insertOrIgnoreEmb
  rw [if_pos]
  exact (any_pair_iff ..).mpr hmem

lemma countPair_insertOrIgnoreEmb_le_one {rows : List EmbRow}
    (hinv : ∀ m h, countPair rows m h ≤ 1) (r : EmbRow) :
    ∀ m h, countPair (insertOrIgnoreEmb rows r) m h ≤ 1 := by
  intro m h
  unfold insertOrIgnoreEmb
  split
  · exact hinv m h
  · rename_i hany
    rw [countPair, List.countP_append]
    have h1 : List.countP (fun x => x.embedding_model_id == m && x.chunk_hash == h) [r] ≤ 1 := by
      by_cases hb : (r.embedding_model_id == m && r.chunk_hash == h) = true
      · simp [List.countP_cons, hb]
      · simp [List.countP_cons, hb]
    by_cases hmh : r.embedding_model_id = m ∧ r.chunk_hash = h
    · have h0 : countPair rows m h = 0 := by
        by_contra hne
        have hp : pairMem rows m h := (countPair_pos_iff rows m h).mp (by omega)
        have hp' : pairMem rows r.embedding_model_id r.chunk_hash := by
          rw [hmh.1, hmh.2]; exact hp
        exact hany ((any_pair_iff ..).mpr hp')
      rw [countPair] at h0
      omega
    · have h2 : List.countP (fun x => x.embedding_model_id == m && x.chunk_hash == h) [r] = 0 := by
        simp only [List.countP_cons, List.countP_nil]
        have hf : ¬ (r.embedding_model_id == m && r.chunk_hash == h) = true := by
          simpa using hmh
        simp [hf]
      have h3 := hinv m h
      rw [countPair] at h3
      omega

lemma existingHashes_contains_iff (rows : List EmbRow) (m h : String) :
    (existingHashes rows m).contains h = true ↔ pairMem rows m h := by
  simp only [existingHashes, rowsFor, pairMem, List.contains_iff_exists_mem_beq,
    List.mem_map, List.mem_filter]
  constructor
  · rintro ⟨h', ⟨r, ⟨hr, hrm⟩, rfl⟩, hbeq⟩
    refine ⟨r, hr, by simpa using hrm, ?_⟩
    have hb : h = r.chunk_hash := by simpa using hbeq
    exact hb.symm
  · rintro ⟨r, hr, hrm, rfl⟩
    exact ⟨r.chunk_hash, ⟨r, ⟨hr, by simp [hrm]⟩, rfl⟩, by simp⟩

/-! ### Lemmas about the embed loop -/

lemma embedLoop_pairMem_mono (ef : String → Option (List ℚ)) (mid : String)
    (l : List (String × String)) (init : List EmbRow × Nat × Nat) {m h : String}
    (hmem : pairMem init.1 m h) :
    pairMem (embedLoop ef mid l init).1 m h := by
  induction l generalizing init with
  | nil => exact hmem
  | cons p rest ih =>
    rw [embedLoop, List.foldl_cons]
    apply ih
    unfold embedStep
    cases hef : ef p.1 with
    | none => exact hmem
    | some v => exact pairMem_insertOrIgnoreEmb_mono _ hmem

lemma embedLoop_pairMem_of_mem (ef : String → Option (List ℚ)) (mid : String)
    (l : List (String × String)) (init : List EmbRow × Nat × Nat) {p : String × String}
    (hp : p ∈ l) (hs : (ef p.1).isSome = true) :
    pairMem (embedLoop ef mid l init).1 mid p.2 := by
  induction l generalizing init with
  | nil => cases hp
  | cons q rest ih =>
    rw [embedLoop, List.foldl_cons]
    rcases List.mem_cons.mp hp with rfl | hp'
    · apply embedLoop_pairMem_mono
      unfold embedStep
      cases hef : ef p.1 with
      | none => simp [hef] at hs
      | some v =>
        exact pairMem_insertOrIgnoreEmb_self _ ⟨mid, p.1, p.2, v⟩
    · exact ih _ hp'

lemma embedLoop_counts (ef : String → Option (List ℚ)) (mid : String)
    (l : List (String × String)) (init : List EmbRow × Nat × Nat) :
    (embedLoop ef mid l init).2.1 =
        init.2.1 + (l.filter (fun p => (ef p.1).isSome)).length ∧
      (embedLoop ef mid l init).2.2 = init.2.2 + l.length := by
  induction l generalizing init with
  | nil => simp [embedLoop]
  | cons p rest ih =>
    rw [embedLoop, List.foldl_cons]
    have h2 := ih (embedStep ef mid init p)
    rw [embedLoop] at h2
    unfold embedStep at h2 ⊢
    cases hef : ef p.1 with
    | none => simp only [hef] at h2 ⊢; simp [h2.1, h2.2, List.filter_cons, hef]; omega
    | some v => simp only [hef] at h2 ⊢; simp [h2.1, h2.2, List.filter_cons, hef]; omega

lemma embedLoop_countPair_le_one (ef : String → Option (List ℚ)) (mid : String)
    (l : List (String × String)) (init : List EmbRow × Nat × Nat)
    (hinv : ∀ m h, countPair init.1 m h ≤ 1) :
    ∀ m h, countPair (embedLoop ef mid l init).1 m h ≤ 1 := by
  induction l generalizing init with
  | nil => exact hinv
  | cons p rest ih =>
    rw [embedLoop, List.foldl_cons]
    apply ih
    unfold embedStep
    cases hef : ef p.1 with
    | none => exact hinv
    | some v => exact countPair_insertOrIgnoreEmb_le_one hinv _

/-! ## The real value of a score, and correctness of the JS sort on real scores

`sval` is the real number a non-`NaN` `Score` denotes: `d / √n`.  It is used
only in proofs (the executable comparisons are `scmp` / `aboveThreshold`);
the lemmas below verify that the squaring-based executable comparisons agree
with the real-valued ones. -/

/-- The real number denoted by a score with `0 < n`. -/
noncomputable def sval (s : Score) : ℝ := (s.d : ℝ) / Real.sqrt (s.n : ℝ)

lemma sval_lt_iff_mul_sqrt {s t : Score} (hs : 0 < s.n) (ht : 0 < t.n) :
    sval s < sval t ↔
      (s.d : ℝ) * Real.sqrt (t.n : ℝ) < (t.d : ℝ) * Real.sqrt (s.n : ℝ) := by
  have hs' : (0 : ℝ) < Real.sqrt (s.n : ℝ) := Real.sqrt_pos.mpr (by exact_mod_cast hs)
  have ht' : (0 : ℝ) < Real.sqrt (t.n : ℝ) := Real.sqrt_pos.mpr (by exact_mod_cast ht)
  exact div_lt_div_iff₀ hs' ht'

lemma mul_sqrt_lt_of_nonneg {s t : Score} (hs : 0 < s.n) (ht : 0 < t.n)
    (hsd : 0 ≤ s.d) (htd : 0 ≤ t.d) :
    ((s.d : ℝ) * Real.sqrt (t.n : ℝ) < (t.d : ℝ) * Real.sqrt (s.n : ℝ)) ↔
      s.d ^ 2 * t.n < t.d ^ 2 * s.n := by
  have hts : Real.sqrt (t.n : ℝ) * Real.sqrt (t.n : ℝ) = (t.n : ℝ) :=
    Real.mul_self_sqrt (by exact_mod_cast ht.le)
  have hss : Real.sqrt (s.n : ℝ) * Real.sqrt (s.n : ℝ) = (s.n : ℝ) :=
    Real.mul_self_sqrt (by exact_mod_cast hs.le)
  rw [mul_self_lt_mul_self_iff
    (mul_nonneg (by exact_mod_cast hsd) (Real.sqrt_nonneg _))
    (mul_nonneg (by exact_mod_cast htd) (Real.sqrt_nonneg _))]
  rw [show ((s.d : ℝ) * Real.sqrt (t.n : ℝ)) * ((s.d : ℝ) * Real.sqrt (t.n : ℝ)) =
      (s.d : ℝ) ^ 2 * (Real.sqrt (t.n : ℝ) * Real.sqrt (t.n : ℝ)) from by ring]
  rw [show ((t.d : ℝ) * Real.sqrt (s.n : ℝ)) * ((t.d : ℝ) * Real.sqrt (s.n : ℝ)) =
      (t.d : ℝ) ^ 2 * (Real.sqrt (s.n : ℝ) * Real.sqrt (s.n : ℝ)) from by ring]
  rw [hts, hss]
  exact_mod_cast Iff.rfl

lemma mul_sqrt_lt_of_neg {s t : Score} (hs : 0 < s.n) (ht : 0 < t.n)
    (hsd : s.d < 0) (htd : t.d < 0) :
    ((s.d : ℝ) * Real.sqrt (t.n : ℝ) < (t.d : ℝ) * Real.sqrt (s.n : ℝ)) ↔
      t.d ^ 2 * s.n < s.d ^ 2 * t.n := by
  have hts : Real.sqrt (t.n : ℝ) * Real.sqrt (t.n : ℝ) = (t.n : ℝ) :=
    Real.mul_self_sqrt (by exact_mod_cast ht.le)
  have hss : Real.sqrt (s.n : ℝ) * Real.sqrt (s.n : ℝ) = (s.n : ℝ) :=
    Real.mul_self_sqrt (by exact_mod_cast hs.le)
  rw [show ((s.d : ℝ) * Real.sqrt (t.n : ℝ) < (t.d : ℝ) * Real.sqrt (s.n : ℝ)) ↔
      (-((t.d : ℝ) * Real.sqrt (s.n : ℝ)) < -((s.d : ℝ) * Real.sqrt (t.n : ℝ))) from
    (neg_lt_neg_iff).symm]
  rw [mul_self_lt_mul_self_iff
    (by
      have : (t.d : ℝ) < 0 := by exact_mod_cast htd
      have := Real.sqrt_pos.mpr (show (0 : ℝ) < (s.n : ℝ) by exact_mod_cast hs)
      nlinarith)
    (by
      have : (s.d : ℝ) < 0 := by exact_mod_cast hsd
      have := Real.sqrt_pos.mpr (show (0 : ℝ) < (t.n : ℝ) by exact_mod_cast ht)
      nlinarith)]
  rw [show (-((t.d : ℝ) * Real.sqrt (s.n : ℝ))) * (-((t.d : ℝ) * Real.sqrt (s.n : ℝ))) =
      (t.d : ℝ) ^ 2 * (Real.sqrt (s.n : ℝ) * Real.sqrt (s.n : ℝ)) from by ring]
  rw [show (-((s.d : ℝ) * Real.sqrt (t.n : ℝ))) * (-((s.d : ℝ) * Real.sqrt (t.n : ℝ))) =
      (s.d : ℝ) ^ 2 * (Real.sqrt (t.n : ℝ) * Real.sqrt (t.n : ℝ)) from by ring]
  rw [hss, hts]
  exact_mod_cast Iff.rfl

/-- The executable comparator agrees with the real-valued strict order on
real (non-`NaN`) scores: `scmp s t = .lt` iff `s`'s value is strictly below
`t`'s. -/
lemma scmp_eq_lt_iff {s t : Score} (hs : 0 < s.n) (ht : 0 < t.n) :
    scmp s t = .lt ↔ sval s < sval t := by
  have hns : ¬ (s.n ≤ 0 ∨ t.n ≤ 0) := by push_neg; exact ⟨hs, ht⟩
  rw [sval_lt_iff_mul_sqrt hs ht, scmp, if_neg hns]
  by_cases hsd : 0 ≤ s.d
  · rw [if_pos hsd]
    by_cases htd : t.d < 0
    · rw [if_pos htd]
      apply iff_of_false (by simp)
      rw [not_lt]
      have h1 : (t.d : ℝ) * Real.sqrt (s.n : ℝ) ≤ 0 :=
        mul_nonpos_of_nonpos_of_nonneg (by exact_mod_cast htd.le) (Real.sqrt_nonneg _)
      have h2 : (0 : ℝ) ≤ (s.d : ℝ) * Real.sqrt (t.n : ℝ) :=
        mul_nonneg (by exact_mod_cast hsd) (Real.sqrt_nonneg _)
      linarith
    · rw [if_neg htd]
      push_neg at htd
      rw [mul_sqrt_lt_of_nonneg hs ht hsd htd]
      by_cases h1 : t.d ^ 2 * s.n < s.d ^ 2 * t.n
      · rw [if_pos h1]
        exact iff_of_false (by simp) (by intro h; linarith)
      · rw [if_neg h1]
        by_cases h2 : s.d ^ 2 * t.n < t.d ^ 2 * s.n
        · rw [if_pos h2]
          exact iff_of_true rfl h2
        · rw [if_neg h2]
          exact iff_of_false (by simp) h2
  · rw [if_neg hsd]
    push_neg at hsd
    by_cases htd : 0 ≤ t.d
    · rw [if_pos htd]
      apply iff_of_true rfl
      have h1 : (s.d : ℝ) * Real.sqrt (t.n : ℝ) < 0 :=
        mul_neg_of_neg_of_pos (by exact_mod_cast hsd)
          (Real.sqrt_pos.mpr (by exact_mod_cast ht))
      have h2 : (0 : ℝ) ≤ (t.d : ℝ) * Real.sqrt (s.n : ℝ) :=
        mul_nonneg (by exact_mod_cast htd) (Real.sqrt_nonneg _)
      linarith
    · rw [if_neg htd]
      push_neg at htd
      rw [mul_sqrt_lt_of_neg hs ht hsd htd]
      by_cases h1 : s.d ^ 2 * t.n < t.d ^ 2 * s.n
      · rw [if_pos h1]
        exact iff_of_false (by simp) (by intro h; linarith)
      · rw [if_neg h1]
        by_cases h2 : t.d ^ 2 * s.n < s.d ^ 2 * t.n
        · rw [if_pos h2]
          exact iff_of_true rfl h2
        · rw [if_neg h2]
          exact iff_of_false (by simp) h2

/-- The executable comparator agrees with the real-valued strict order:
`scmp s t = .gt` iff `s`'s value is strictly above `t`'s. -/
lemma scmp_eq_gt_iff {s t : Score} (hs : 0 < s.n) (ht : 0 < t.n) :
    scmp s t = .gt ↔ sval t < sval s := by
  have hns : ¬ (s.n ≤ 0 ∨ t.n ≤ 0) := by push_neg; exact ⟨hs, ht⟩
  rw [sval_lt_iff_mul_sqrt ht hs, scmp, if_neg hns]
  by_cases hsd : 0 ≤ s.d
  · rw [if_pos hsd]
    by_cases htd : t.d < 0
    · rw [if_pos htd]
      apply iff_of_true rfl
      have h1 : (t.d : ℝ) * Real.sqrt (s.n : ℝ) < 0 :=
        mul_neg_of_neg_of_pos (by exact_mod_cast htd)
          (Real.sqrt_pos.mpr (by exact_mod_cast hs))
      have h2 : (0 : ℝ) ≤ (s.d : ℝ) * Real.sqrt (t.n : ℝ) :=
        mul_nonneg (by exact_mod_cast hsd) (Real.sqrt_nonneg _)
      linarith
    · rw [if_neg htd]
      push_neg at htd
      rw [mul_sqrt_lt_of_nonneg ht hs htd hsd]
      by_cases h1 : t.d ^ 2 * s.n < s.d ^ 2 * t.n
      · rw [if_pos h1]
        exact iff_of_true rfl h1
      · rw [if_neg h1]
        by_cases h2 : s.d ^ 2 * t.n < t.d ^ 2 * s.n
        · rw [if_pos h2]
          exact iff_of_false (by simp) (by intro h; linarith)
        · rw [if_neg h2]
          exact iff_of_false (by simp) h1
  · rw [if_neg hsd]
    push_neg at hsd
    by_cases htd : 0 ≤ t.d
    · rw [if_pos htd]
      apply iff_of_false (by simp)
      rw [not_lt]
      have h1 : (s.d : ℝ) * Real.sqrt (t.n : ℝ) ≤ 0 :=
        mul_nonpos_of_nonpos_of_nonneg (by exact_mod_cast hsd.le) (Real.sqrt_nonneg _)
      have h2 : (0 : ℝ) ≤ (t.d : ℝ) * Real.sqrt (s.n : ℝ) :=
        mul_nonneg (by exact_mod_cast htd) (Real.sqrt_nonneg _)
      linarith
    · rw [if_neg htd]
      push_neg at htd
      rw [mul_sqrt_lt_of_neg ht hs htd hsd]
      by_cases h1 : s.d ^ 2 * t.n < t.d ^ 2 * s.n
      · rw [if_pos h1]
        exact iff_of_true rfl h1
      · rw [if_neg h1]
        by_cases h2 : t.d ^ 2 * s.n < s.d ^ 2 * t.n
        · rw [if_pos h2]
          exact iff_of_false (by simp) (by intro h; linarith)
        · rw [if_neg h2]
          exact iff_of_false (by simp) h1

/-! ### Membership and sortedness of the modelled JS sort -/

lemma mem_insertScored (x y : String × Score) (l : List (String × Score)) :
    y ∈ insertScored x l ↔ y = x ∨ y ∈ l := by
  induction l with
  | nil => simp [insertScored]
  | cons z zs ih =>
    rw [insertScored]
    by_cases h : scmp x.2 z.2 = .gt
    · rw [if_pos h]
      simp only [List.mem_cons, ih]
      tauto
    · rw [if_neg h]
      exact List.mem_cons

lemma mem_foldl_insertScored (l : List (String × Score)) (acc : List (String × Score))
    (y : String × Score) :
    y ∈ l.foldl (fun a x => insertScored x a) acc ↔ y ∈ acc ∨ y ∈ l := by
  induction l generalizing acc with
  | nil => simp
  | cons z zs ih =>
    rw [List.foldl_cons, ih, mem_insertScored]
    simp only [List.mem_cons]
    tauto

lemma mem_jsSortByScoreDesc (l : List (String × Score)) (y : String × Score) :
    y ∈ jsSortByScoreDesc l ↔ y ∈ l := by
  rw [jsSortByScoreDesc, List.mem_reverse, mem_foldl_insertScored]
  simp

lemma pairwise_insertScored (x : String × Score) (l : List (String × Score))
    (hx : 0 < x.2.n) (hl : ∀ y ∈ l, 0 < y.2.n)
    (hp : l.Pairwise (fun a b => sval a.2 ≤ sval b.2)) :
    (insertScored x l).Pairwise (fun a b => sval a.2 ≤ sval b.2) := by
  induction l with
  | nil => simp [insertScored]
  | cons y ys ih =>
    rw [insertScored]
    rcases List.pairwise_cons.mp hp with ⟨hy, hys⟩
    have hyn : 0 < y.2.n := hl y (by simp)
    by_cases hgt : scmp x.2 y.2 = .gt
    · rw [if_pos hgt]
      refine List.pairwise_cons.mpr ⟨?_, ih (fun z hz => hl z (by simp [hz])) hys⟩
      intro z hz
      rcases (mem_insertScored ..).mp hz with rfl | hz'
      · exact ((scmp_eq_gt_iff hx hyn).mp hgt).le
      · exact hy z hz'
    · rw [if_neg hgt]
      have hxy : sval x.2 ≤ sval y.2 := by
        by_contra hcon
        push_neg at hcon
        exact hgt ((scmp_eq_gt_iff hx hyn).mpr hcon)
      refine List.pairwise_cons.mpr ⟨?_, hp⟩
      intro z hz
      rcases List.mem_cons.mp hz with rfl | hz'
      · exact hxy
      · exact le_trans hxy (hy z hz')

lemma pairwise_foldl_insertScored (l : List (String × Score))
    (acc : List (String × Score)) (hl : ∀ y ∈ l, 0 < y.2.n)
    (hacc : ∀ y ∈ acc, 0 < y.2.n)
    (hp : acc.Pairwise (fun a b => sval a.2 ≤ sval b.2)) :
    (l.foldl (fun a x => insertScored x a) acc).Pairwise
      (fun a b => sval a.2 ≤ sval b.2) := by
  induction l generalizing acc with
  | nil => exact hp
  | cons z zs ih =>
    rw [List.foldl_cons]
    apply ih
    · intro y hy
      exact hl y (List.mem_cons_of_mem z hy)
    · intro y hy
      rcases (mem_insertScored ..).mp hy with rfl | hy'
      · exact hl _ (List.mem_cons_self _ _)
      · exact hacc y hy'
    · exact pairwise_insertScored z acc (hl z (List.mem_cons_self _ _)) hacc hp

/-- On real (non-`NaN`) scores, the modelled JS sort is non-increasing in the
scores' real values. -/
lemma jsSortByScoreDesc_pairwise (l : List (String × Score))
    (hl : ∀ y ∈ l, 0 < y.2.n) :
    (jsSortByScoreDesc l).Pairwise (fun a b => sval b.2 ≤ sval a.2) := by
  rw [jsSortByScoreDesc, List.pairwise_reverse]
  exact pairwise_foldl_insertScored l [] hl (by simp) (by simp)

/-! ### Basic facts about `ragRelevant` -/

lemma ragRelevant_length_le (q : List ℚ) (rows : List EmbRow) :
    (ragRelevant q rows).length ≤ TOP_K :=
  le_trans (List.length_filter_le _ _) (List.length_take_le _ _)

lemma ragRelevant_aboveThreshold (q : List ℚ) (rows : List EmbRow) :
    ∀ p ∈ ragRelevant q rows, aboveThreshold p.2 = true := by
  intro p hp
  unfold ragRelevant at hp
  have h := List.of_mem_filter hp
  simpa using h

lemma ragRelevant_mem_scores (q : List ℚ) (rows : List EmbRow) :
    ∀ p ∈ ragRelevant q rows, ∃ r ∈ rows,
      p = (r.chunk_text, cosineSimilarity q r.embedding) := by
  intro p hp
  unfold ragRelevant at hp
  have h1 := List.mem_of_mem_filter hp
  have h2 := (mem_jsSortByScoreDesc ..).mp (List.mem_of_mem_take h1)
  rcases List.mem_map.mp h2 with ⟨r, hr, hpr⟩
  exact ⟨r, hr, hpr.symm⟩

/-- When every row's similarity against the query is a real number (no
zero-norm vector, no dimension mismatch), the retrieval result is
non-increasing in similarity (stated via the executable comparator:
no adjacent-or-later pair is strictly ascending). -/
lemma ragRelevant_pairwise (q : List ℚ) (rows : List EmbRow)
    (hreal : ∀ r ∈ rows, 0 < (cosineSimilarity q r.embedding).n) :
    (ragRelevant q rows).Pairwise (fun a b => scmp a.2 b.2 ≠ Ordering.lt) := by
  have hsims : ∀ y ∈ rows.map (fun r => (r.chunk_text, cosineSimilarity q r.embedding)),
      0 < y.2.n := by
    intro y hy
    rcases List.mem_map.mp hy with ⟨r, hr, rfl⟩
    exact hreal r hr
  have hsorted := jsSortByScoreDesc_pairwise _ hsims
  have htake := hsorted.sublist (List.take_sublist TOP_K _)
  have hfil : (((jsSortByScoreDesc (rows.map
        (fun r => (r.chunk_text, cosineSimilarity q r.embedding)))).take TOP_K).filter
      (fun c => aboveThreshold c.2)).Pairwise (fun a b => sval b.2 ≤ sval a.2) :=
    htake.sublist (List.filter_sublist _)
  unfold ragRelevant
  refine hfil.imp_of_mem ?_
  intro a b ha hb hab
  have ha' : 0 < a.2.n := by
    rcases ragRelevant_mem_scores q rows a ha with ⟨r, hr, rfl⟩
    exact hreal r hr
  have hb' : 0 < b.2.n := by
    rcases ragRelevant_mem_scores q rows b hb with ⟨r, hr, rfl⟩
    exact hreal r hr
  intro hlt
  exact absurd hab (not_le.mpr ((scmp_eq_lt_iff ha' hb').mp hlt))

/-! ## Claim theorems -/

/-- A 20-character (after trimming) candidate chunk, used by claim C9:
the source keeps only chunks with `length > 20`, so this one is dropped. -/
def twentyCharText : String := "abcdefghijklmnopqrst"

/-- Claim C9, counterexample.  The chunker's pre-filter output on this input
is a single trimmed chunk of exactly 20 characters, and the final output
drops it: a trimmed chunk of exactly 20 characters is **not** kept
(the filter is `c.length > 20`, strict). -/
theorem c9_short_chunk_counterexample :
    chunkTextRaw twentyCharText = [twentyCharText] ∧
      twentyCharText.length = 20 ∧ chunkText twentyCharText = [] := by
  refine ⟨by decide, by decide, by decide⟩

/-- Claim C9, amended: a candidate chunk is dropped exactly when its trimmed
length is **at most** 20 characters (the filter is strict `> 20`), so every
output chunk has length greater than 20 and a trimmed chunk of exactly 20
characters is dropped. -/
theorem c9_short_chunk_amended :
    (∀ t : String, chunkText t = (chunkTextRaw t).filter (fun c => 20 < c.length)) ∧
      (∀ t : String, ∀ c ∈ chunkText t, 20 < c.length) := by
  constructor
  · intro t
    rw [chunkText, chunkTextRaw, chunkTextL, List.filter_map]
    rfl
  · intro t c hc
    rw [chunkText] at hc
    rcases List.mem_map.mp hc with ⟨cl, hcl, rfl⟩
    rw [chunkTextL] at hcl
    have h20 : 20 < cl.length := by
      have := List.of_mem_filter hcl
      simpa using this
    simpa [String.length] using h20

/-- Claim C9, witness: the amended filter characterisation evaluated at a
concrete document text. -/
theorem c9_short_chunk_witness :
    chunkText "This is a sentence that is long enough." =
      (chunkTextRaw "This is a sentence that is long enough.").filter
        (fun c => 20 < c.length) :=
  c9_short_chunk_amended.1 "This is a sentence that is long enough."

/-- Claim C10: when the current document text yields zero chunks, the
coverage status reports `totalChunks = 0`, `embeddedChunks = 0`,
`percentage = 0` and `needsUpdate = false`, for every model and store
content. -/
theorem c10_empty_doc_status (hashFn : String → String) (modelId text : String)
    (db : DB) (h : chunkText text = []) :
    (getStatus hashFn modelId text db).2 = ⟨0, 0, 0, false⟩ := by
  unfold getStatus
  rw [h]
  simp

/-- Claim C10, witness: the empty document yields zero chunks, and the
status response on an empty store under the default model is all-zero. -/
theorem c10_empty_doc_status_witness :
    chunkText "" = [] ∧
      (getStatus (fun s => s) DEFAULT_EMBEDDING_MODEL "" ⟨[], [], []⟩).2 =
        ⟨0, 0, 0, false⟩ :=
  ⟨by decide, c10_empty_doc_status _ _ _ _ (by decide)⟩

/-- The C8 counterexample input: a 302-character one-word sentence
(`301×'a'` then `'.'`), a space, then 300 `'b'`s.  Closing the first chunk
happens with a buffer of a single word, so `Math.floor(1 * 0.2) = 0` and
`words.slice(-0)` seeds the next chunk with the **entire** closed chunk, not
with its trailing ~20% of words. -/
def c8BigTextL : List Char :=
  List.replicate 301 'a' ++ '.' :: ' ' :: List.replicate 300 'b'

set_option maxRecDepth 1000000 in
/-- Claim C8, counterexample: on `c8BigTextL` the source chunker and the
chunker described by the claim (overlap = trailing ~20% of words) produce
different outputs - the source's second chunk repeats the whole first chunk
(603 characters), the claim's second chunk is just the second sentence
(300 characters). -/
theorem c8_chunker_counterexample :
    chunkTextL c8BigTextL ≠ chunkTextC8claimL c8BigTextL := by decide

/-- Claim C8, amended: the chunker splits into sentence units at `.`, `!`,
`?` followed by whitespace, greedily accumulates, closes exactly when the
buffer is non-empty and appending the next sentence passes 500 characters,
flushes a non-empty trailing buffer, and seeds the next chunk with the
trailing `⌊20%⌋` of the closed chunk's words **except** when that count is
zero (fewer than five words), in which case the whole closed chunk is
carried forward; a single sentence longer than 500 characters is never split
mid-sentence - it becomes one oversized chunk by itself. -/
theorem c8_chunker_amended :
    (∀ t : List Char, chunkTextL t = chunkTextC8amendedL t) ∧
      (∀ t s : List Char, splitSentencesL t = [s] → CHUNK_SIZE < (trimL s).length →
        chunkTextL t = [trimL s]) := by
  constructor
  · intro t
    rfl
  · intro t s hsent hlen
    have hne : trimL s ≠ [] := by
      intro h0
      rw [h0] at hlen
      simp [CHUNK_SIZE] at hlen
    have hstep : chunkStepL ([], []) s = (s, []) := by
      rw [chunkStepL]
      rw [if_neg (by simp)]
      simp
    unfold chunkTextL chunkTextRawL
    rw [hsent, List.foldl_cons, List.foldl_nil, hstep]
    simp only
    rw [if_neg hne]
    have h20 : (20 : Nat) < (trimL s).length :=
      lt_trans (by norm_num [CHUNK_SIZE]) hlen
    simp [h20]

set_option maxRecDepth 1000000 in
/-- Claim C8, witness: a single 501-character sentence (no punctuation) is
one sentence unit and becomes a single oversized chunk, unsplit. -/
theorem c8_chunker_witness :
    chunkTextL (List.replicate 501 'a') = [trimL (List.replicate 501 'a')] :=
  c8_chunker_amended.2 (List.replicate 501 'a') (List.replicate 501 'a')
    (by decide) (by decide)

/-- Claim C1, counterexample: with a stored all-zero vector `[0]` and query
`[1]`, the source's `cosineSimilarity` computes `0 / (√1 · √0) = 0/0`, i.e.
`NaN` - the similarity is **not** the real number `0`.  (No crash occurs: JS
division never throws; the `NaN` outcome is what the amended claim
describes.) -/
theorem c1_zero_norm_counterexample :
    Score.isNaN (cosineSimilarity [(1 : ℚ)] [0]) = true ∧ sumsq [(0 : ℚ)] = 0 := by
  constructor
  · norm_num [cosineSimilarity, Score.isNaN, dotProduct, sumsq]
  · norm_num [sumsq]

/-- Claim C1, amended: if either the query vector or a stored vector (of
matching dimension) has zero norm, the similarity computation does not crash
but evaluates to `NaN` (the JS `0/0`), not to `0`; and no `NaN`-scored pair
ever appears in the retrieval result, because the strict `> 0.3` threshold
filter rejects every `NaN` score - so a stored all-zero vector never causes
a division error during scoring and never contributes to the returned
context (behaviourally equivalent to treating its similarity as `0`). -/
theorem c1_zero_norm_amended (q v : List ℚ) (hlen : q.length = v.length)
    (h : sumsq q = 0 ∨ sumsq v = 0) :
    Score.isNaN (cosineSimilarity q v) = true ∧
      ∀ (q2 : List ℚ) (rows : List EmbRow), ∀ p ∈ ragRelevant q2 rows,
        Score.isNaN p.2 = false := by
  constructor
  · rw [cosineSimilarity, if_neg (by omega)]
    have htake : v.take q.length = v := by rw [hlen]; simp
    rw [htake]
    rcases h with h | h <;> simp [Score.isNaN, h]
  · intro q2 rows p hp
    have hab := ragRelevant_aboveThreshold q2 rows p hp
    rw [aboveThreshold] at hab
    simp only [Bool.and_eq_true, decide_eq_true_eq] at hab
    have hpos : ¬ p.2.n ≤ 0 := not_le.mpr hab.1.1
    simp [Score.isNaN, hpos]

/-- Claim C1, witness: the amended statement evaluated at query `[1]` and
stored vector `[0]`. -/
theorem c1_zero_norm_witness :
    Score.isNaN (cosineSimilarity [(1 : ℚ)] [0]) = true ∧
      ∀ (q2 : List ℚ) (rows : List EmbRow), ∀ p ∈ ragRelevant q2 rows,
        Score.isNaN p.2 = false :=
  c1_zero_norm_amended [1] [0] rfl (Or.inr (by norm_num [sumsq]))

/-- If no stored row of the model scores above the threshold, the relevant
list is empty. -/
lemma ragRelevant_eq_nil (q : List ℚ) (rows : List EmbRow)
    (h : ∀ r ∈ rows, aboveThreshold (cosineSimilarity q r.embedding) = false) :
    ragRelevant q rows = [] := by
  unfold ragRelevant
  rw [List.filter_eq_nil_iff]
  intro p hp
  have h2 := (mem_jsSortByScoreDesc ..).mp (List.mem_of_mem_take hp)
  rcases List.mem_map.mp h2 with ⟨r, hr, rfl⟩
  simp [h r hr]

/-- Claim C7: retrieval is fail-open.  (a) If the Provider fails to return a
query vector (the source's `getEmbedding` yields `[]` on failure), the
context is the empty string; (b) if no vectors are stored for the model,
the context is the empty string; (c) if no stored vector scores above the
threshold, the context is the empty string.  In all cases `getRAGContext`
returns a value (the model is a total function; the source additionally
wraps the body in `try/catch` returning `''`), never an error. -/
theorem c7_fail_open :
    (∀ (provider : String → List ℚ) (query modelId : String) (db : DB),
        provider query = [] → getRAGContext provider query modelId db = "") ∧
      (∀ (provider : String → List ℚ) (query modelId : String) (db : DB),
        rowsFor modelId db.embeddings = [] →
          getRAGContext provider query modelId db = "") ∧
      (∀ (provider : String → List ℚ) (query modelId : String) (db : DB),
        (∀ r ∈ rowsFor modelId db.embeddings,
            aboveThreshold (cosineSimilarity (provider query) r.embedding) = false) →
          getRAGContext provider query modelId db = "") := by
  refine ⟨?_, ?_, ?_⟩
  · intro provider query modelId db h
    rw [getRAGContext, h]
    simp
  · intro provider query modelId db h
    rw [getRAGContext]
    by_cases hq : (provider query).length = 0
    · rw [if_pos hq]
    · rw [if_neg hq]
      simp only [h]
      simp
  · intro provider query modelId db h
    rw [getRAGContext]
    by_cases hq : (provider query).length = 0
    · rw [if_pos hq]
    · rw [if_neg hq]
      by_cases hr : (rowsFor modelId db.embeddings).length = 0
      · rw [if_pos hr]
      · rw [if_neg hr, ragRelevant_eq_nil _ _ h]
        rfl

/-- Claim C7, witness: the three fail-open outcomes at concrete inputs -
failed Provider call, empty model namespace, and a single stored vector
whose similarity (negative) is below the threshold. -/
theorem c7_fail_open_witness :
    getRAGContext (fun _ => []) "q" "m" ⟨[], [], []⟩ = "" ∧
      getRAGContext (fun _ => [1]) "q" "m" ⟨[], [], []⟩ = "" ∧
      getRAGContext (fun _ => [1]) "q" "m" ⟨[⟨"m", "X", "h", [-1]⟩], [], []⟩ = "" :=
  ⟨c7_fail_open.1 _ "q" "m" _ rfl,
   c7_fail_open.2.1 _ "q" "m" _ (by simp [rowsFor]),
   c7_fail_open.2.2 _ "q" "m" _ (by
     intro r hr
     simp only [rowsFor, List.filter_cons, List.filter_nil] at hr
     simp only [show (EmbRow.embedding_model_id ⟨"m", "X", "h", [-1]⟩ == "m") = true from
       rfl, if_pos] at hr
     rcases List.mem_singleton.mp hr with rfl
     norm_num [aboveThreshold, cosineSimilarity, dotProduct, sumsq])⟩

/-- The C2 counterexample query vector. -/
def c2Query : List ℚ := [1, 0]

/-- The C2 counterexample stored rows: `A` scores `1/√2 ≈ 0.707`, `B` is an
all-zero vector (score `NaN`), `C` scores `1`. -/
def c2Rows : List EmbRow :=
  [⟨"m", "A", "hA", [1, 1]⟩, ⟨"m", "B", "hB", [0, 0]⟩, ⟨"m", "C", "hC", [1, 0]⟩]

/-- Claim C2, counterexample: with a zero-norm stored vector present, the
sort comparator `b.score - a.score` returns `NaN` (coerced to `+0` by
ECMAScript `SortCompare`), so the `NaN`-scored row compares equal to
everything and the sort leaves `[A (0.707), B (NaN), C (1)]` in place; after
`slice(0,3)` and the threshold filter the returned context is `"A\n\nC"` -
the first returned text scores strictly **below** the second, refuting
"texts in non-increasing score order". -/
theorem c2_ordering_counterexample :
    getRAGContext (fun _ => c2Query) "query" "m" ⟨c2Rows, [], []⟩ = "A\n\nC" ∧
      scmp (cosineSimilarity c2Query [1, 1]) (cosineSimilarity c2Query [1, 0]) =
        Ordering.lt ∧
      ¬ (ragRelevant c2Query c2Rows).Pairwise
          (fun a b => scmp a.2 b.2 ≠ Ordering.lt) := by
  have hrag : ragRelevant c2Query c2Rows = [("A", ⟨1, 2⟩), ("C", ⟨1, 1⟩)] := by
    norm_num [ragRelevant, jsSortByScoreDesc, insertScored, scmp, cosineSimilarity,
      dotProduct, sumsq, aboveThreshold, TOP_K, c2Query, c2Rows, List.foldl]
    norm_num [List.take, List.filter]
  have hrag' : ragRelevant [1, 0]
      [⟨"m", "A", "hA", [1, 1]⟩, ⟨"m", "B", "hB", [0, 0]⟩, ⟨"m", "C", "hC", [1, 0]⟩] =
      [("A", ⟨1, 2⟩), ("C", ⟨1, 1⟩)] := by
    simpa [c2Query, c2Rows] using hrag
  have hscmp : scmp (⟨1, 2⟩ : Score) ⟨1, 1⟩ = Ordering.lt := by
    norm_num [scmp]
  refine ⟨?_, ?_, ?_⟩
  · rw [getRAGContext]
    norm_num [c2Query, rowsFor, c2Rows]
    rw [hrag']
    rfl
  · have hA : cosineSimilarity c2Query [1, 1] = ⟨1, 2⟩ := by
      norm_num [cosineSimilarity, dotProduct, sumsq, c2Query]
    have hC : cosineSimilarity c2Query [1, 0] = ⟨1, 1⟩ := by
      norm_num [cosineSimilarity, dotProduct, sumsq, c2Query]
    rw [hA, hC, hscmp]
  · rw [hrag]
    intro hpw
    rcases List.pairwise_cons.mp hpw with ⟨hh, _⟩
    exact hh ("C", ⟨1, 1⟩) (by simp) hscmp

/-- Claim C2, amended: retrieval maps every stored vector of the model to
its cosine similarity against the query, sorts descending, takes the first
`TOP_K = 3`, and drops entries at or below the `0.3` threshold.  Hence - for
**every** query and stored set - the result has at most `TOP_K` entries and
every entry scores strictly above the threshold; and **provided every
computed similarity is a real number** (no zero-norm vector and no dimension
mismatch, so the comparator is consistent), the returned texts are in
non-increasing similarity order.  (The ordering clause can fail when a `NaN`
similarity is present, as the counterexample shows.) -/
theorem c2_retrieval_amended :
    (∀ (q : List ℚ) (rows : List EmbRow),
        (ragRelevant q rows).length ≤ TOP_K ∧
          ∀ p ∈ ragRelevant q rows, aboveThreshold p.2 = true) ∧
      ∀ (q : List ℚ) (rows : List EmbRow),
        (∀ r ∈ rows, 0 < (cosineSimilarity q r.embedding).n) →
          (ragRelevant q rows).Pairwise (fun a b => scmp a.2 b.2 ≠ Ordering.lt) :=
  ⟨fun q rows => ⟨ragRelevant_length_le q rows, ragRelevant_aboveThreshold q rows⟩,
   fun q rows hreal => ragRelevant_pairwise q rows hreal⟩

/-- Claim C2, witness: the amended statement at a concrete query and a
single stored row with a real (non-`NaN`) similarity, the realness
hypothesis of the ordering conjunct discharged by evaluation. -/
theorem c2_retrieval_witness :
    ((ragRelevant [1] [⟨"m", "X", "h", [1]⟩]).length ≤ TOP_K ∧
        ∀ p ∈ ragRelevant [1] [⟨"m", "X", "h", [1]⟩], aboveThreshold p.2 = true) ∧
      (ragRelevant [1] [⟨"m", "X", "h", [1]⟩]).Pairwise
        (fun a b => scmp a.2 b.2 ≠ Ordering.lt) :=
  ⟨c2_retrieval_amended.1 [1] [⟨"m", "X", "h", [1]⟩],
   c2_retrieval_amended.2 [1] [⟨"m", "X", "h", [1]⟩] (by
     intro r hr
     rcases List.mem_singleton.mp hr with rfl
     norm_num [cosineSimilarity, dotProduct, sumsq])⟩

/-! ### Projection lemmas for `postEmbed` -/

lemma mem_insertOrIgnoreModel_self (ms : List String) (m : String) :
    m ∈ insertOrIgnoreModel ms m := by
  unfold insertOrIgnoreModel
  split
  · assumption
  · simp

lemma insertOrIgnoreModel_of_mem {ms : List String} {m : String} (h : m ∈ ms) :
    insertOrIgnoreModel ms m = ms := by
  unfold insertOrIgnoreModel
  rw [if_pos h]

lemma postEmbed_embeddings (hashFn : String → String)
    (embedFn : String → Option (List ℚ)) (modelId text : String) (db : DB) :
    (postEmbed hashFn embedFn modelId text db).1.embeddings =
      (embedLoop embedFn modelId (newChunksOf hashFn modelId text db)
        (db.embeddings, 0, 0)).1 := by
  simp only [postEmbed]
  split
  · rename_i h
    rw [List.isEmpty_iff.mp h]
    rfl
  · rfl

lemma postEmbed_embedded_count (hashFn : String → String)
    (embedFn : String → Option (List ℚ)) (modelId text : String) (db : DB) :
    (postEmbed hashFn embedFn modelId text db).2.1 =
      (embedLoop embedFn modelId (newChunksOf hashFn modelId text db)
        (db.embeddings, 0, 0)).2.1 := by
  simp only [postEmbed]
  split
  · rename_i h
    rw [List.isEmpty_iff.mp h]
    rfl
  · rfl

lemma postEmbed_call_count (hashFn : String → String)
    (embedFn : String → Option (List ℚ)) (modelId text : String) (db : DB) :
    (postEmbed hashFn embedFn modelId text db).2.2 =
      (embedLoop embedFn modelId (newChunksOf hashFn modelId text db)
        (db.embeddings, 0, 0)).2.2 := by
  simp only [postEmbed]
  split
  · rename_i h
    rw [List.isEmpty_iff.mp h]
    rfl
  · rfl

lemma postEmbed_models (hashFn : String → String)
    (embedFn : String → Option (List ℚ)) (modelId text : String) (db : DB) :
    (postEmbed hashFn embedFn modelId text db).1.embedding_models =
      insertOrIgnoreModel db.embedding_models modelId := by
  simp only [postEmbed]
  split
  · rfl
  · rfl

lemma postEmbed_of_no_new (hashFn : String → String)
    (embedFn : String → Option (List ℚ)) (modelId text : String) (db : DB)
    (h : newChunksOf hashFn modelId text db = []) :
    postEmbed hashFn embedFn modelId text db =
      ({ db with embedding_models :=
          insertOrIgnoreModel db.embedding_models modelId }, 0, 0) := by
  unfold postEmbed
  rw [if_pos (by rw [h]; rfl)]

/-- Claim C6: batch embedding is fault-tolerant.  For every store, text and
Provider behaviour: the reported `embedded` count is exactly the number of
new chunks whose Provider call succeeds (a partial success count, never an
abort); every new chunk gets its own Provider call (one bad chunk does not
stop the loop: the call count equals the number of new chunks, failures
included); and every successfully embedded chunk - including those processed
before a failure - is stored in the resulting table. -/
theorem c6_partial_failure (hashFn : String → String)
    (embedFn : String → Option (List ℚ)) (modelId textContent : String) (db : DB) :
    (postEmbed hashFn embedFn modelId textContent db).2.1 =
        ((newChunksOf hashFn modelId textContent db).filter
          (fun p => (embedFn p.1).isSome)).length ∧
      (postEmbed hashFn embedFn modelId textContent db).2.2 =
        (newChunksOf hashFn modelId textContent db).length ∧
      ∀ p ∈ newChunksOf hashFn modelId textContent db, (embedFn p.1).isSome = true →
        pairMem (postEmbed hashFn embedFn modelId textContent db).1.embeddings
          modelId p.2 := by
  refine ⟨?_, ?_, ?_⟩
  · rw [postEmbed_embedded_count]
    rw [(embedLoop_counts embedFn modelId
      (newChunksOf hashFn modelId textContent db) (db.embeddings, 0, 0)).1]
    simp
  · rw [postEmbed_call_count]
    rw [(embedLoop_counts embedFn modelId
      (newChunksOf hashFn modelId textContent db) (db.embeddings, 0, 0)).2]
    simp
  · intro p hp hs
    rw [postEmbed_embeddings]
    exact embedLoop_pairMem_of_mem embedFn modelId _ _ hp hs

/-- The C6/C3 witness document: the two-chunk text of `c8BigTextL`. -/
def c6Text : String := String.mk c8BigTextL

/-- The first chunk of `c6Text` (`301×'a'` then `'.'`). -/
def c6Chunk1 : String := String.mk (List.replicate 301 'a' ++ ['.'])

/-- A Provider that fails on the first chunk of `c6Text` and succeeds on
everything else. -/
def c6EmbedF : String → Option (List ℚ) :=
  fun s => if s = c6Chunk1 then none else some [1]

set_option maxRecDepth 1000000 in
/-- Claim C6, witness: on the two-chunk `c6Text` with a Provider failing on
the first chunk, the handler reports `embedded = 1` (partial success), makes
2 Provider calls (the failure does not stop the loop), and the second chunk
is stored. -/
theorem c6_partial_failure_witness :
    (postEmbed (fun s => s) c6EmbedF "m1" c6Text ⟨[], [], []⟩).2.1 = 1 ∧
      (postEmbed (fun s => s) c6EmbedF "m1" c6Text ⟨[], [], []⟩).2.2 = 2 ∧
      pairMem (postEmbed (fun s => s) c6EmbedF "m1" c6Text ⟨[], [], []⟩).1.embeddings
        "m1" c6Text := by
  obtain ⟨h1, h2, h3⟩ := c6_partial_failure (fun s => s) c6EmbedF "m1" c6Text ⟨[], [], []⟩
  refine ⟨?_, ?_, ?_⟩
  · rw [h1]; decide
  · rw [h2]; decide
  · exact h3 (c6Text, c6Text) (by decide) (by decide)

/-- Claim C3: embedding is idempotent.  If the Provider succeeds on every
chunk and the store satisfies its `UNIQUE(embedding_model_id, chunk_hash)`
invariant, then after one embed pass every chunk hash has exactly one
`EmbeddingRecord` under the model; a second pass over the same content
reports `embedded = 0`, makes **zero** Provider calls, and leaves the store
untouched; and re-inserting any existing `(modelId, chunkHash)` pair is a
no-op (`INSERT OR IGNORE`). -/
theorem c3_idempotent_embedding (hashFn : String → String)
    (embedFn : String → Option (List ℚ)) (modelId textContent : String) (db : DB)
    (hsucc : ∀ s, (embedFn s).isSome = true)
    (hinv : ∀ m h, countPair db.embeddings m h ≤ 1) :
    (postEmbed hashFn embedFn modelId textContent
        (postEmbed hashFn embedFn modelId textContent db).1).2.1 = 0 ∧
      (postEmbed hashFn embedFn modelId textContent
        (postEmbed hashFn embedFn modelId textContent db).1).2.2 = 0 ∧
      (postEmbed hashFn embedFn modelId textContent
        (postEmbed hashFn embedFn modelId textContent db).1).1 =
        (postEmbed hashFn embedFn modelId textContent db).1 ∧
      (∀ c ∈ chunkText textContent,
        countPair (postEmbed hashFn embedFn modelId textContent db).1.embeddings
          modelId (hashFn c) = 1) ∧
      (∀ (rows : List EmbRow) (r : EmbRow),
        pairMem rows r.embedding_model_id r.chunk_hash →
          insertOrIgnoreEmb rows r = rows) := by
  have hmem1 : ∀ c ∈ chunkText textContent,
      pairMem (postEmbed hashFn embedFn modelId textContent db).1.embeddings
        modelId (hashFn c) := by
    intro c hc
    rw [postEmbed_embeddings]
    by_cases hex : (existingHashes db.embeddings modelId).contains (hashFn c) = true
    · exact embedLoop_pairMem_mono _ _ _ _ ((existingHashes_contains_iff ..).mp hex)
    · have hpmem : (c, hashFn c) ∈ newChunksOf hashFn modelId textContent db := by
        unfold newChunksOf
        refine List.mem_filter.mpr ⟨List.mem_map.mpr ⟨c, hc, rfl⟩, ?_⟩
        simpa using hex
      exact embedLoop_pairMem_of_mem _ _ _ _ hpmem (hsucc c)
  have hinv1 : ∀ m h,
      countPair (postEmbed hashFn embedFn modelId textContent db).1.embeddings m h ≤ 1 := by
    intro m h
    rw [postEmbed_embeddings]
    exact embedLoop_countPair_le_one _ _ _ _ hinv m h
  have hnil2 : newChunksOf hashFn modelId textContent
      (postEmbed hashFn embedFn modelId textContent db).1 = [] := by
    unfold newChunksOf
    rw [List.filter_eq_nil_iff]
    intro p hp
    rcases List.mem_map.mp hp with ⟨c, hc, rfl⟩
    have hcon := (existingHashes_contains_iff
      (postEmbed hashFn embedFn modelId textContent db).1.embeddings modelId
      (hashFn c)).mpr (hmem1 c hc)
    have hmemh : hashFn c ∈ existingHashes
        (postEmbed hashFn embedFn modelId textContent db).1.embeddings modelId := by
      simpa using hcon
    simp [hmemh]
  have ho2 := postEmbed_of_no_new hashFn embedFn modelId textContent
    (postEmbed hashFn embedFn modelId textContent db).1 hnil2
  have hmodels : modelId ∈
      (postEmbed hashFn embedFn modelId textContent db).1.embedding_models := by
    rw [postEmbed_models]
    exact mem_insertOrIgnoreModel_self _ _
  refine ⟨by rw [ho2], by rw [ho2], ?_, ?_, ?_⟩
  · rw [ho2, insertOrIgnoreModel_of_mem hmodels]
  · intro c hc
    exact countPair_eq_one_of_mem (hmem1 c hc) (hinv1 modelId (hashFn c))
  · intro rows r hmem
    exact insertOrIgnoreEmb_of_mem hmem

/-- Claim C3, witness: the idempotence statement at a one-sentence document,
the identity hash, an always-succeeding Provider, and the empty store. -/
theorem c3_idempotent_embedding_witness :
    (postEmbed (fun s => s) (fun _ => some [1]) "m1"
        "This is a sentence that is long enough."
        (postEmbed (fun s => s) (fun _ => some [1]) "m1"
          "This is a sentence that is long enough." ⟨[], [], []⟩).1).2.1 = 0 ∧
      (postEmbed (fun s => s) (fun _ => some [1]) "m1"
        "This is a sentence that is long enough."
        (postEmbed (fun s => s) (fun _ => some [1]) "m1"
          "This is a sentence that is long enough." ⟨[], [], []⟩).1).2.2 = 0 ∧
      (postEmbed (fun s => s) (fun _ => some [1]) "m1"
        "This is a sentence that is long enough."
        (postEmbed (fun s => s) (fun _ => some [1]) "m1"
          "This is a sentence that is long enough." ⟨[], [], []⟩).1).1 =
        (postEmbed (fun s => s) (fun _ => some [1]) "m1"
          "This is a sentence that is long enough." ⟨[], [], []⟩).1 ∧
      (∀ c ∈ chunkText "This is a sentence that is long enough.",
        countPair (postEmbed (fun s => s) (fun _ => some [1]) "m1"
            "This is a sentence that is long enough." ⟨[], [], []⟩).1.embeddings
          "m1" c = 1) ∧
      (∀ (rows : List EmbRow) (r : EmbRow),
        pairMem rows r.embedding_model_id r.chunk_hash →
          insertOrIgnoreEmb rows r = rows) :=
  c3_idempotent_embedding (fun s => s) (fun _ => some [1]) "m1"
    "This is a sentence that is long enough." ⟨[], [], []⟩
    (fun _ => rfl) (fun _ _ => Nat.zero_le 1)

/-- Claim C4: legacy-schema migration.  Initializing a store whose
`embeddings` table is the legacy single-model one (no `embedding_model_id`
column) with `N` rows yields a namespaced table that is no longer legacy,
holds exactly `N` rows, contains every legacy row copied forward under the
default model id, and holds rows of the default model only; the same
rename/recreate/copy/drop upgrade is applied to the coverage-cache
(`embedding_state`) table, copying its `id = 1` row forward under the
default model id. -/
theorem c4_migration_correctness (erows : List LegacyEmbRow)
    (srows : List LegacyStateRow) (ms : List String) :
    (initStore ⟨.legacy erows, .legacy srows, ms⟩).embeddings.isLegacyTable = false ∧
      (initStore ⟨.legacy erows, .legacy srows, ms⟩).embeddings.rowsOf.length =
        erows.length ∧
      (∀ r ∈ erows, migrateEmbRow r ∈
        (initStore ⟨.legacy erows, .legacy srows, ms⟩).embeddings.rowsOf) ∧
      (∀ r ∈ (initStore ⟨.legacy erows, .legacy srows, ms⟩).embeddings.rowsOf,
        r.embedding_model_id = DEFAULT_EMBEDDING_MODEL) ∧
      (initStore ⟨.legacy erows, .legacy srows, ms⟩).embedding_state.isLegacyTable =
        false ∧
      (initStore ⟨.legacy erows, .legacy srows, ms⟩).embedding_state.rowsOf =
        (srows.filter (fun r => r.id == 1)).map migrateStateRow := by
  have hemb : (initStore ⟨.legacy erows, .legacy srows, ms⟩).embeddings =
      .namespaced (erows.map migrateEmbRow) := rfl
  have hst : (initStore ⟨.legacy erows, .legacy srows, ms⟩).embedding_state =
      .namespaced ((srows.filter (fun r => r.id == 1)).map migrateStateRow) := rfl
  refine ⟨by rw [hemb]; rfl, by rw [hemb]; simp [EmbTable.rowsOf], ?_, ?_,
    by rw [hst]; rfl, by rw [hst]; rfl⟩
  · intro r hr
    rw [hemb]
    exact List.mem_map.mpr ⟨r, hr, rfl⟩
  · intro r hr
    rw [hemb] at hr
    rcases List.mem_map.mp hr with ⟨x, _, rfl⟩
    rfl

/-- Claim C4, witness: migration of a concrete legacy store with one
embedding row and two state rows (only `id = 1` is copied). -/
theorem c4_migration_witness :
    (initStore ⟨.legacy [⟨"t1", "h1", [1]⟩],
        .legacy [⟨1, none, 1, 1⟩, ⟨2, none, 5, 5⟩], []⟩).embeddings.isLegacyTable =
      false ∧
      (initStore ⟨.legacy [⟨"t1", "h1", [1]⟩],
        .legacy [⟨1, none, 1, 1⟩, ⟨2, none, 5, 5⟩], []⟩).embeddings.rowsOf.length = 1 ∧
      (∀ r ∈ [(⟨"t1", "h1", [1]⟩ : LegacyEmbRow)], migrateEmbRow r ∈
        (initStore ⟨.legacy [⟨"t1", "h1", [1]⟩],
          .legacy [⟨1, none, 1, 1⟩, ⟨2, none, 5, 5⟩], []⟩).embeddings.rowsOf) ∧
      (∀ r ∈ (initStore ⟨.legacy [⟨"t1", "h1", [1]⟩],
          .legacy [⟨1, none, 1, 1⟩, ⟨2, none, 5, 5⟩], []⟩).embeddings.rowsOf,
        r.embedding_model_id = DEFAULT_EMBEDDING_MODEL) ∧
      (initStore ⟨.legacy [⟨"t1", "h1", [1]⟩],
        .legacy [⟨1, none, 1, 1⟩, ⟨2, none, 5, 5⟩], []⟩).embedding_state.isLegacyTable =
        false ∧
      (initStore ⟨.legacy [⟨"t1", "h1", [1]⟩],
        .legacy [⟨1, none, 1, 1⟩, ⟨2, none, 5, 5⟩], []⟩).embedding_state.rowsOf =
        ([(⟨1, none, 1, 1⟩ : LegacyStateRow), ⟨2, none, 5, 5⟩].filter
          (fun r => r.id == 1)).map migrateStateRow :=
  c4_migration_correctness [⟨"t1", "h1", [1]⟩] [⟨1, none, 1, 1⟩, ⟨2, none, 5, 5⟩] []

/-! ### Helper lemmas for namespace isolation (claim C5) -/

lemma rowsFor_insertOrIgnoreEmb_other {B : String} (rows : List EmbRow) (r : EmbRow)
    (h : ¬ r.embedding_model_id = B) :
    rowsFor B (insertOrIgnoreEmb rows r) = rowsFor B rows := by
  unfold insertOrIgnoreEmb
  split
  · rfl
  · rw [rowsFor, List.filter_append]
    have hr : List.filter (fun x => x.embedding_model_id == B) [r] = [] := by
      simp [h]
    rw [hr, List.append_nil]
    rfl

lemma rowsFor_deleteCore_other {A B : String} (hAB : A ≠ B) (db : DB) :
    rowsFor B (deleteCore A db).embeddings = rowsFor B db.embeddings := by
  rw [deleteCore]
  show List.filter _ (List.filter _ _) = _
  rw [List.filter_filter]
  apply List.filter_congr
  intro x _
  by_cases hx : x.embedding_model_id = B
  · have hxa : ¬ x.embedding_model_id = A := by rw [hx]; exact fun h => hAB h.symm
    simp [hx, hxa]
    exact fun hba => hAB hba.symm
  · simp [hx]

lemma rowsFor_deleteCore_self (A : String) (db : DB) :
    rowsFor A (deleteCore A db).embeddings = [] := by
  rw [deleteCore]
  show List.filter _ (List.filter _ _) = _
  rw [List.filter_filter, List.filter_eq_nil_iff]
  intro x _
  by_cases hx : x.embedding_model_id = A <;> simp [hx]

lemma existingHashes_congr {m : String} {rows1 rows2 : List EmbRow}
    (h : rowsFor m rows1 = rowsFor m rows2) :
    existingHashes rows1 m = existingHashes rows2 m := by
  rw [existingHashes, existingHashes, h]

lemma getStatus_resp_congr (hashFn : String → String) (m text : String)
    {db1 db2 : DB} (h : rowsFor m db1.embeddings = rowsFor m db2.embeddings) :
    (getStatus hashFn m text db1).2 = (getStatus hashFn m text db2).2 := by
  simp only [getStatus]
  rw [existingHashes_congr h]

lemma getRAGContext_congr (provider : String → List ℚ) (q m : String)
    {db1 db2 : DB} (h : rowsFor m db1.embeddings = rowsFor m db2.embeddings) :
    getRAGContext provider q m db1 = getRAGContext provider q m db2 := by
  simp only [getRAGContext]
  rw [h]

lemma jsRound_zero : jsRound 0 = 0 := by
  rw [jsRound]
  rw [show (0 : ℚ) + 1 / 2 = 1 / 2 by norm_num]
  exact Int.floor_eq_zero_iff.mpr (by constructor <;> norm_num)

lemma getStatus_deleteCore_self (hashFn : String → String) (A text : String)
    (db : DB) :
    (getStatus hashFn A text (deleteCore A db)).2.embeddedChunks = 0 ∧
      (getStatus hashFn A text (deleteCore A db)).2.percentage = 0 := by
  have hzero : existingHashes (deleteCore A db).embeddings A = [] := by
    rw [existingHashes, rowsFor_deleteCore_self]
    rfl
  have hfil : (chunkText text).filter
      (fun c => (existingHashes (deleteCore A db).embeddings A).contains (hashFn c)) =
        [] := by
    rw [hzero]
    simp
  constructor
  · simp only [getStatus]
    rw [hfil]
    rfl
  · simp only [getStatus]
    rw [hfil]
    by_cases h : 0 < (chunkText text).length
    · rw [List.length_nil, if_pos h]
      rw [show ((0 : Nat) : ℚ) * 100 / ((chunkText text).length : ℚ) = 0 by
        norm_num]
      exact jsRound_zero
    · rw [if_neg h]

/-- Claim C5: namespace isolation.  For distinct model ids `A ≠ B`
(`A` non-empty so the `DELETE` validation passes): inserting an embedding
row under `A` changes neither retrieval nor coverage against `B`; deleting
`A`'s embeddings succeeds, removes every `EmbeddingRecord` of `A`, resets
`A`'s coverage to zero (`embeddedChunks = 0`, `percentage = 0`), leaves
`B`'s records, coverage and retrieval unchanged, and leaves the registered
model list - hence `A`'s registration - untouched. -/
theorem c5_namespace_isolation (A B : String) (hAB : A ≠ B) (hA : A ≠ "") :
    (∀ (db : DB) (r : EmbRow) (provider : String → List ℚ) (q : String),
        r.embedding_model_id = A →
          getRAGContext provider q B
              ⟨insertOrIgnoreEmb db.embeddings r, db.embedding_state,
                db.embedding_models⟩ =
            getRAGContext provider q B db) ∧
      (∀ (db : DB) (r : EmbRow) (hashFn : String → String) (text : String),
        r.embedding_model_id = A →
          (getStatus hashFn B text
              ⟨insertOrIgnoreEmb db.embeddings r, db.embedding_state,
                db.embedding_models⟩).2 =
            (getStatus hashFn B text db).2) ∧
      (∀ db : DB, deleteEmbeddings A db = some (deleteCore A db)) ∧
      (∀ db : DB, rowsFor A (deleteCore A db).embeddings = []) ∧
      (∀ (db : DB) (hashFn : String → String) (text : String),
        (getStatus hashFn A text (deleteCore A db)).2.embeddedChunks = 0 ∧
          (getStatus hashFn A text (deleteCore A db)).2.percentage = 0) ∧
      (∀ db : DB, rowsFor B (deleteCore A db).embeddings = rowsFor B db.embeddings) ∧
      (∀ (db : DB) (hashFn : String → String) (text : String),
        (getStatus hashFn B text (deleteCore A db)).2 = (getStatus hashFn B text db).2) ∧
      (∀ (db : DB) (provider : String → List ℚ) (q : String),
        getRAGContext provider q B (deleteCore A db) = getRAGContext provider q B db) ∧
      (∀ db : DB, (deleteCore A db).embedding_models = db.embedding_models) := by
  have hins : ∀ (db : DB) (r : EmbRow), r.embedding_model_id = A →
      rowsFor B (insertOrIgnoreEmb db.embeddings r) = rowsFor B db.embeddings := by
    intro db r hr
    exact rowsFor_insertOrIgnoreEmb_other db.embeddings r (by rw [hr]; exact hAB)
  refine ⟨?_, ?_, ?_, ?_, ?_, ?_, ?_, ?_, ?_⟩
  · intro db r provider q hr
    exact getRAGContext_congr provider q B (hins db r hr)
  · intro db r hashFn text hr
    exact getStatus_resp_congr hashFn B text (hins db r hr)
  · intro db
    rw [deleteEmbeddings, if_neg hA]
  · intro db
    exact rowsFor_deleteCore_self A db
  · intro db hashFn text
    exact getStatus_deleteCore_self hashFn A text db
  · intro db
    exact rowsFor_deleteCore_other hAB db
  · intro db hashFn text
    exact getStatus_resp_congr hashFn B text (rowsFor_deleteCore_other hAB db)
  · intro db provider q
    exact getRAGContext_congr provider q B (rowsFor_deleteCore_other hAB db)
  · intro db
    rfl

/-- Claim C5, witness: isolation of models `"m1"` and `"m2"`, at one
concrete store: after deleting `"m1"`'s embeddings, `"m1"` has no rows and
zero coverage while `"m2"`'s rows and status are untouched, and the model
registry is untouched. -/
theorem c5_namespace_isolation_witness :
    deleteEmbeddings "m1" ⟨[⟨"m1", "X", "h1", [1]⟩, ⟨"m2", "Y", "h2", [1]⟩], [],
        ["m1", "m2"]⟩ =
      some (deleteCore "m1" ⟨[⟨"m1", "X", "h1", [1]⟩, ⟨"m2", "Y", "h2", [1]⟩], [],
        ["m1", "m2"]⟩) ∧
      rowsFor "m1" (deleteCore "m1" ⟨[⟨"m1", "X", "h1", [1]⟩, ⟨"m2", "Y", "h2", [1]⟩],
        [], ["m1", "m2"]⟩).embeddings = [] ∧
      rowsFor "m2" (deleteCore "m1" ⟨[⟨"m1", "X", "h1", [1]⟩, ⟨"m2", "Y", "h2", [1]⟩],
          [], ["m1", "m2"]⟩).embeddings =
        rowsFor "m2" [⟨"m1", "X", "h1", [1]⟩, ⟨"m2", "Y", "h2", [1]⟩] ∧
      (deleteCore "m1" ⟨[⟨"m1", "X", "h1", [1]⟩, ⟨"m2", "Y", "h2", [1]⟩], [],
        ["m1", "m2"]⟩).embedding_models = ["m1", "m2"] := by
  obtain ⟨_, _, h3, h4, _, h6, _, _, h9⟩ :=
    c5_namespace_isolation "m1" "m2" (by decide) (by decide)
  exact ⟨h3 _, h4 _, h6 _, h9 _⟩
